import Mathlib

/-!
Shallow embedding of the libcsv library (src/libcsv.go) and verification of
its specification claims.

Strings are modelled as lists of characters (`Str`), Go `time.Time` values at
UTC midnight as their Unix timestamps (`Int`), and Go `int64` amounts as `Int`
(the `strconv.ParseInt` bit-size range checks are modelled explicitly).
Recoverable errors (`error` return values) are modelled as `.goError`,
Go runtime panics (index out of range, `throw`) as `.goPanic`.
-/

namespace Libcsv

/-- Character strings, as lists of characters (Go strings / byte slices). -/
abbrev Str := List Char

/-- Whitespace class used by `regexp \s` and `strings.TrimSpace` (ASCII part). -/
def isSpaceGo (c : Char) : Bool :=
  c = ' ' || c = '\t' || c = '\n' || c = '\x0d' || c = '\x0b' || c = '\x0c'

/-- Word-character class of `regexp \w`: ASCII letters, digits and underscore. -/
def isWordGo (c : Char) : Bool :=
  c.isAlphanum || c = '_'

/-- ASCII lower-casing of one character (`strings.ToLower` / `bytes.ToLower`). -/
def lowerChar (c : Char) : Char :=
  if 'A' ≤ c ∧ c ≤ 'Z' then Char.ofNat (c.toNat + 32) else c

/-- ASCII lower-casing of a string. -/
def lowerStr (s : Str) : Str := s.map lowerChar

/-- `strings.TrimSpace`: drop leading and trailing whitespace. -/
def trimGo (s : Str) : Str :=
  ((s.dropWhile isSpaceGo).reverse.dropWhile isSpaceGo).reverse

/-- Collapse maximal whitespace runs to a single space
(`whitespace.ReplaceAllString(s, " ")` for `whitespace = \s+`).
The flag records whether the previous character was whitespace. -/
def collapseAux : Bool → Str → Str
  | _, [] => []
  | prev, c :: rest =>
    if isSpaceGo c then
      if prev then collapseAux true rest else ' ' :: collapseAux true rest
    else c :: collapseAux false rest

/-- `clean`: trim, then collapse internal whitespace runs to single spaces. -/
def clean (s : Str) : Str := collapseAux false (trimGo s)

/-- Decimal value of a digit string, accumulator style
(the digit loop inside `strconv.ParseInt`); `none` on a non-digit. -/
def digitsVal : Nat → Str → Option Nat
  | acc, [] => some acc
  | acc, c :: rest =>
    if c.isDigit then digitsVal (10 * acc + (c.toNat - 48)) rest else none

/-- The sign handling of `strconv.ParseInt`: Go tests `s[0]` against `+`
and `-`; the remainder must hold the digits. -/
def signSplit (s : Str) : Bool × Str :=
  match s with
  | c :: r => if c = '+' then (false, r) else if c = '-' then (true, r) else (false, s)
  | [] => (false, s)

/-- The digit/range part of `strconv.ParseInt`: non-empty digit string,
two's-complement range check for the given bit size. -/
def parseDigitsRange (bits : Nat) (neg : Bool) (ds : Str) : Option Int :=
  if ds = [] then none
  else
    match digitsVal 0 ds with
    | none => none
    | some n =>
      let v : Int := if neg then -(n : Int) else (n : Int)
      if -(2 ^ (bits - 1) : Int) ≤ v ∧ v ≤ (2 ^ (bits - 1) : Int) - 1 then some v
      else none

/-- `strconv.ParseInt(s, 10, bits)`. -/
def parseIntGo (bits : Nat) (s : Str) : Option Int :=
  let p := signSplit s
  parseDigitsRange bits p.1 p.2

/-- First index of a character in a string (`strings.IndexRune`, as an option). -/
def idxOf : Char → Str → Option Nat
  | _, [] => none
  | c, x :: rest => if x = c then some 0 else (idxOf c rest).map (· + 1)

/-- `strings.SplitN(s, " ", 2)`: the part before the first space, and
(if a space exists) the part after it. -/
def splitN2 (s : Str) : Str × Option Str :=
  match idxOf ' ' s with
  | none => (s, none)
  | some i => (s.take i, some (s.drop (i + 1)))

/-- Non-overlapping replacement of a non-empty pattern (`strings.ReplaceAll`).
`p :: ps` is the pattern, `rep` the replacement. -/
def replaceAllCore (p : Char) (ps rep : Str) : Str → Str
  | [] => []
  | c :: rest =>
    if p = c ∧ ps.isPrefixOf rest then
      rep ++ replaceAllCore p ps rep (rest.drop ps.length)
    else c :: replaceAllCore p ps rep rest
termination_by s => s.length
decreasing_by
  · simp only [List.length_cons, List.length_drop]
    omega
  · simp only [List.length_cons]
    omega

/-- `strings.ReplaceAll` (an empty pattern inserts the replacement around
every character, as in Go). -/
def replaceAllGo (pat rep s : Str) : Str :=
  match pat with
  | [] => rep ++ s.flatMap (fun c => c :: rep)
  | p :: ps => replaceAllCore p ps rep s

/-- One atomic transaction (`Record`); the date is its Unix timestamp. -/
structure Record where
  sender : Str
  receiver : Str
  label : Str
  dateU : Int
  amount : Int
deriving DecidableEq, Repr

/-- A collection is an ordered sequence of records. -/
abbrev Collection := List Record

/-- Render an integer as its decimal string (Go `%v` for int64). -/
def intStr (i : Int) : Str := (toString i).data

/-- The canonical dedup key of a record (`Record.String`):
`["sender","receiver","label",unixSeconds,amount]`. -/
def Record.canonKey (r : Record) : Str :=
  '[' :: '"' :: r.sender ++ '"' :: ',' :: '"' :: r.receiver ++ '"' :: ',' :: '"' ::
    r.label ++ '"' :: ',' :: intStr r.dateU ++ ',' :: intStr r.amount ++ [']']

/-- Outcomes of Go code: a recoverable `error` value, or a runtime panic. -/
inductive GoEx where
  | goError (msg : String)
  | goPanic (msg : String)
deriving DecidableEq, Repr

/-- Result of a Go computation returning `α`. -/
abbrev GoRes (α : Type) := Except GoEx α

/-! ## Calendar arithmetic: the embedding of `time.Date(y,m,d,0,0,0,0,UTC)` -/

/-- Gregorian leap year test. -/
def isLeapGo (y : Int) : Bool := y % 4 = 0 ∧ (y % 100 ≠ 0 ∨ y % 400 = 0)

/-- Days of the proleptic Gregorian calendar strictly before year `y`,
counted from year 1. -/
def daysBeforeYear (y : Int) : Int :=
  365 * (y - 1) + (y - 1) / 4 - (y - 1) / 100 + (y - 1) / 400

/-- Days before month `m` (1..12) in a year whose leapness is `leap`. -/
def monthOff (leap : Bool) (m : Int) : Int :=
  (if m = 1 then 0 else if m = 2 then 31 else if m = 3 then 59
   else if m = 4 then 90 else if m = 5 then 120 else if m = 6 then 151
   else if m = 7 then 181 else if m = 8 then 212 else if m = 9 then 243
   else if m = 10 then 273 else if m = 11 then 304 else if m = 12 then 334
   else 0)
  + (if leap ∧ 3 ≤ m then 1 else 0)

/-- Month normalization performed by `time.Date` (months outside 1..12 roll
the year; Euclidean arithmetic reproduces Go's adjusted truncation). -/
def normYM (y m : Int) : Int × Int := (y + (m - 1) / 12, (m - 1) % 12 + 1)

/-- Days since the Unix epoch of the (normalized) civil date `y-m-d`;
day overflow simply carries, exactly as in `time.Date`. -/
def civilDays (y m d : Int) : Int :=
  let p := normYM y m
  daysBeforeYear p.1 + monthOff (isLeapGo p.1) p.2 + d - 1 - 719162

/-- `time.Date(y, m, d, 0, 0, 0, 0, time.UTC).Unix()`. -/
def dateUnixGo (y m d : Int) : Int := 86400 * civilDays y m d

/-- Number of days in month `m` of year `y` (for `time.Parse` validation). -/
def daysInMonth (y m : Int) : Int :=
  if m = 2 then (if isLeapGo y then 29 else 28)
  else if m = 4 ∨ m = 6 ∨ m = 9 ∨ m = 11 then 30
  else 31

/-- `time.Parse("2006-01-02", s)` restricted to its success set: exactly
`YYYY-MM-DD` with a valid month and day, returning the Unix timestamp. -/
def parseDateGo (s : Str) : Option Int :=
  match s with
  | [y1, y2, y3, y4, '-', m1, m2, '-', d1, d2] =>
    if y1.isDigit ∧ y2.isDigit ∧ y3.isDigit ∧ y4.isDigit ∧
       m1.isDigit ∧ m2.isDigit ∧ d1.isDigit ∧ d2.isDigit then
      let y : Int := ((y1.toNat - 48) * 1000 + (y2.toNat - 48) * 100 +
        (y3.toNat - 48) * 10 + (y4.toNat - 48) : Nat)
      let m : Int := ((m1.toNat - 48) * 10 + (m2.toNat - 48) : Nat)
      let d : Int := ((d1.toNat - 48) * 10 + (d2.toNat - 48) : Nat)
      if 1 ≤ m ∧ m ≤ 12 ∧ 1 ≤ d ∧ d ≤ daysInMonth y m then
        some (dateUnixGo y m d)
      else none
    else none
  | _ => none

/-! ## Locale -/

/-- Process-wide locale: ordered month names and unicode substitution rules.
The Go map's iteration order is unspecified; the model fixes a list order. -/
structure Locale where
  months : List Str
  unicode : List (Str × Str)

/-- `Locale.Month`: index of the first stored month name having the given
text as a prefix, `-1` when none. -/
def localeMonth (months : List Str) (name : Str) : Int :=
  match months with
  | [] => -1
  | m :: rest =>
    if name.isPrefixOf m then 0
    else
      let i := localeMonth rest name
      if i = -1 then -1 else i + 1

/-- `Locale.Translate`: apply each substitution rule with `ReplaceAll`. -/
def translateGo (subs : List (Str × Str)) (s : Str) : Str :=
  subs.foldl (fun acc p => replaceAllGo p.1 p.2 acc) s

/-! ## Text matching -/

/-- `nonAlphaNumeric.ReplaceAllString(s, " ")` for the class `[^a-z0-9]`. -/
def alnumToSpace (s : Str) : Str :=
  s.map (fun c => if ('a' ≤ c ∧ c ≤ 'z') ∨ ('0' ≤ c ∧ c ≤ '9') then c else ' ')

/-- `doesItMatch(keyword, value)`. `none` models the Go panics:
indexing byte 0 of an empty keyword, and the slice `s[1:0]` taken when the
keyword is the single character `"`. -/
def doesItMatchGo (subs : List (Str × Str)) (keyword value : Str) : Option Bool :=
  let k := translateGo subs (lowerStr keyword)
  let v := translateGo subs (lowerStr value)
  match k with
  | [] => none
  | c :: rest =>
    if c = '"' ∧ (c :: rest).getLast? = some '"' then
      match rest with
      | [] => none
      | _ :: _ => some (v = rest.dropLast)
    else
      some (List.isPrefixOf (c :: rest) v ||
        List.isPrefixOf (c :: rest) (trimGo (alnumToSpace v)))

/-- The loop of `comparator.isMatchingText` over `,`-separated alternatives,
with Go's early exit on the first match. -/
def firstTextMatch (subs : List (Str × Str)) (value : Str) : List Str → Option Bool
  | [] => some false
  | kw :: rest =>
    match doesItMatchGo subs kw value with
    | none => none
    | some true => some true
    | some false => firstTextMatch subs value rest

/-- `comparator.isMatchingText`: split the comparand on `,` and try each
alternative. -/
def isMatchingTextGo (subs : List (Str × Str)) (bytesValue value : Str) : Option Bool :=
  firstTextMatch subs value (bytesValue.splitOn ',')

/-! ## Comparators -/

/-- Bracket inclusivity scope of a formula. -/
structure scope where
  isLeftInclusive : Bool
  isRightInclusive : Bool
deriving DecidableEq, Repr

/-- The `time.Now()` data used by date parsing: current year and month. -/
structure Now where
  year : Int
  month : Int

/-- A prepared, typed predicate (`comparator`); the back-reference to the
formula's `intervalScope` is flattened into the two inclusivity booleans. -/
structure comparator where
  header : Char
  operator : Char
  bytesValue : Str
  numberValue : Int
  offsetValue : Int
  scopeL : Bool
  scopeR : Bool
deriving DecidableEq, Repr

/-- Absolute value of a record's amount, as computed inside the amount
comparators. -/
def absAmt (r : Record) : Int := if r.amount < 0 then -r.amount else r.amount

/-- `comparator.IsMatchingDate`. -/
def comparator.IsMatchingDate (c : comparator) (r : Record) : Bool :=
  if c.offsetValue > 0 then
    decide (c.numberValue ≤ r.dateU ∧ r.dateU ≤ c.numberValue + c.offsetValue)
  else decide (r.dateU = c.numberValue)

/-- `comparator.IsAfterDate`. -/
def comparator.IsAfterDate (c : comparator) (r : Record) : Bool :=
  if c.scopeL then decide (r.dateU ≥ c.numberValue)
  else decide (r.dateU > c.numberValue + c.offsetValue)

/-- `comparator.IsBeforeDate`. -/
def comparator.IsBeforeDate (c : comparator) (r : Record) : Bool :=
  if c.scopeR then decide (r.dateU ≤ c.numberValue + c.offsetValue)
  else decide (r.dateU < c.numberValue)

/-- `comparator.IsMatchingAmount`. -/
def comparator.IsMatchingAmount (c : comparator) (r : Record) : Bool :=
  if c.offsetValue > 0 then
    decide (absAmt r ≥ c.numberValue ∧ absAmt r ≤ c.numberValue + c.offsetValue)
  else decide (absAmt r = c.numberValue)

/-- `comparator.IsGreaterThanAmount`. -/
def comparator.IsGreaterThanAmount (c : comparator) (r : Record) : Bool :=
  if c.scopeL then decide (absAmt r ≥ c.numberValue) else decide (absAmt r > c.numberValue)

/-- `comparator.IsLessThanAmount`. -/
def comparator.IsLessThanAmount (c : comparator) (r : Record) : Bool :=
  if c.scopeR then decide (absAmt r ≤ c.numberValue) else decide (absAmt r < c.numberValue)

/-- `comparator.HasAscendingAmount`. -/
def comparator.HasAscendingAmount (c : comparator) (r : Record) : Bool :=
  decide (r.amount > c.numberValue)

/-- `comparator.HasDescendingAmount`. -/
def comparator.HasDescendingAmount (c : comparator) (r : Record) : Bool :=
  decide (r.amount < c.numberValue)

/-- Lift a text-match outcome: `none` (out-of-bounds access) is a panic. -/
def textRes : Option Bool → GoRes Bool
  | none => .error (.goPanic "runtime error: index out of range")
  | some b => .ok b

/-- `comparator.Compare`: dispatch on header and operator, with the
`"header X? <op byte>"` errors for invalid combinations. -/
def Compare (subs : List (Str × Str)) (c : comparator) (r : Record) : GoRes Bool :=
  if c.header = 'a' then
    if c.operator = '=' then textRes (isMatchingTextGo subs c.bytesValue r.sender)
    else .error (.goError ("header a? " ++ toString c.operator.toNat))
  else if c.header = 'b' then
    if c.operator = '=' then textRes (isMatchingTextGo subs c.bytesValue r.receiver)
    else .error (.goError ("header b? " ++ toString c.operator.toNat))
  else if c.header = 'c' then
    if c.operator = '=' then textRes (isMatchingTextGo subs c.bytesValue r.label)
    else .error (.goError ("header c? " ++ toString c.operator.toNat))
  else if c.header = 'd' then
    if c.operator = '=' then .ok (c.IsMatchingDate r)
    else if c.operator = '>' then .ok (c.IsAfterDate r)
    else if c.operator = '<' then .ok (c.IsBeforeDate r)
    else .error (.goError ("header d? " ++ toString c.operator.toNat))
  else if c.header = 's' then
    if c.operator = '=' then .ok (c.IsMatchingAmount r)
    else if c.operator = '>' then .ok (c.IsGreaterThanAmount r)
    else if c.operator = '<' then .ok (c.IsLessThanAmount r)
    else .error (.goError ("header s? " ++ toString c.operator.toNat))
  else if c.header = 'x' then
    if c.operator = '=' then
      match isMatchingTextGo subs c.bytesValue r.sender with
      | none => .error (.goPanic "runtime error: index out of range")
      | some true => .ok true
      | some false => textRes (isMatchingTextGo subs c.bytesValue r.receiver)
    else .error (.goError ("header x? " ++ toString c.operator.toNat))
  else if c.header = 'z' then
    if c.operator = '>' then .ok (c.HasAscendingAmount r)
    else if c.operator = '<' then .ok (c.HasDescendingAmount r)
    else .error (.goError ("header z? " ++ toString c.operator.toNat))
  else .error (.goError ("unsupported header: " ++ toString c.header.toNat))

/-! ## Date value patterns (`_DATE_REGEX_*`) -/

/-- `^(\d{1,2})\s+(\w{3,})$`. -/
def matchDayMonth (s : Str) : Option (Str × Str) :=
  let d := s.takeWhile Char.isDigit
  let r1 := s.dropWhile Char.isDigit
  if 1 ≤ d.length ∧ d.length ≤ 2 then
    let sp := r1.takeWhile isSpaceGo
    let r2 := r1.dropWhile isSpaceGo
    if 1 ≤ sp.length ∧ 3 ≤ r2.length ∧ r2.all isWordGo then some (d, r2) else none
  else none

/-- `^(\d{1,2})\s+(\w{3,})\s+(\d{4})$`. -/
def matchDayMonthYear (s : Str) : Option (Str × Str × Str) :=
  let d := s.takeWhile Char.isDigit
  let r1 := s.dropWhile Char.isDigit
  if 1 ≤ d.length ∧ d.length ≤ 2 then
    let sp := r1.takeWhile isSpaceGo
    let r2 := r1.dropWhile isSpaceGo
    let w := r2.takeWhile isWordGo
    let r3 := r2.dropWhile isWordGo
    if 1 ≤ sp.length ∧ 3 ≤ w.length then
      let sp2 := r3.takeWhile isSpaceGo
      let r4 := r3.dropWhile isSpaceGo
      if 1 ≤ sp2.length ∧ r4.length = 4 ∧ r4.all Char.isDigit then some (d, w, r4)
      else none
    else none
  else none

/-- `^(\w{3,})\s+(\d{4})$`. -/
def matchMonthYear (s : Str) : Option (Str × Str) :=
  let w := s.takeWhile isWordGo
  let r1 := s.dropWhile isWordGo
  if 3 ≤ w.length then
    let sp := r1.takeWhile isSpaceGo
    let r2 := r1.dropWhile isSpaceGo
    if 1 ≤ sp.length ∧ r2.length = 4 ∧ r2.all Char.isDigit then some (w, r2) else none
  else none

/-- `^(\d{1,2})[\/\.\-](\d{1,2})[\/\.\-](\d{4})$`. -/
def matchDMYsep (s : Str) : Option (Str × Str × Str) :=
  let a := s.takeWhile Char.isDigit
  let r1 := s.dropWhile Char.isDigit
  if 1 ≤ a.length ∧ a.length ≤ 2 then
    match r1 with
    | c1 :: r2 =>
      if c1 = '/' ∨ c1 = '.' ∨ c1 = '-' then
        let b := r2.takeWhile Char.isDigit
        let r3 := r2.dropWhile Char.isDigit
        if 1 ≤ b.length ∧ b.length ≤ 2 then
          match r3 with
          | c2 :: r4 =>
            if c2 = '/' ∨ c2 = '.' ∨ c2 = '-' then
              if r4.length = 4 ∧ r4.all Char.isDigit then some (a, b, r4) else none
            else none
          | [] => none
        else none
      else none
    | [] => none
  else none

/-- `^(\d{4})-(\d{2})-(\d{2})$`. -/
def matchYMD (s : Str) : Option (Str × Str × Str) :=
  match s with
  | [a, b, c, d, '-', e, f, '-', g, h] =>
    if a.isDigit ∧ b.isDigit ∧ c.isDigit ∧ d.isDigit ∧
       e.isDigit ∧ f.isDigit ∧ g.isDigit ∧ h.isDigit then
      some ([a, b, c, d], [e, f], [g, h])
    else none
  | _ => none

/-! ## The condition pattern `\s*([xzabcds]\s*[=><])\s*(.+)\s*` -/

/-- After a header-class character: skip `\s*`, require an operator
character, and extract group 2 (`(.+)` under leftmost-first semantics).
The effective operator byte is the second byte of the whitespace-stripped
group 1, which differs from the operator character only when the skipped
run contains non-space whitespace. -/
def afterHeader (rest : Str) : Option (Char × Str) :=
  let seg := rest.takeWhile isSpaceGo
  let r1 := rest.dropWhile isSpaceGo
  match r1 with
  | [] => none
  | o :: tail =>
    if o = '=' ∨ o = '>' ∨ o = '<' then
      let opc := match seg.filter (fun c => c ≠ ' ') with
                 | [] => o
                 | t :: _ => t
      let t := tail.dropWhile isSpaceGo
      match t with
      | [] =>
        match tail.getLast? with
        | none => none
        | some c => if c = '\n' then none else some (opc, [c])
      | _ :: _ => some (opc, t.takeWhile (fun c => c ≠ '\n'))
    else none

/-- `_FORMULA_REGEX.FindSubmatch`: scan for the leftmost position where the
condition pattern matches, returning header byte, operator byte and the
raw group-2 value. -/
def condRegexFind : Str → Option (Char × Char × Str)
  | [] => none
  | c :: rest =>
    if c = 'x' ∨ c = 'z' ∨ c = 'a' ∨ c = 'b' ∨ c = 'c' ∨ c = 'd' ∨ c = 's' then
      match afterHeader rest with
      | some (o, g2) => some (c, o, g2)
      | none => condRegexFind rest
    else condRegexFind rest

/-! ## prepare -/

/-- The `HEADER_D_DATE` arm of `prepare`: try the five date patterns in the
source's order, then month name, then bare 4-digit year. -/
def prepareDateCmp (loc : Locale) (now : Now) (base : comparator) : GoRes comparator :=
  let bv := base.bytesValue
  match matchDayMonth bv with
  | some (dayS, monS) =>
    match parseIntGo 8 dayS with
    | none => .error (.goError "not a day")
    | some day =>
      if 0 < day ∧ day < 32 then
        let mi := localeMonth loc.months monS + 1
        if 0 < mi then
          let cy := if mi > now.month then now.year - 1 else now.year
          .ok { base with numberValue := dateUnixGo cy mi day }
        else .ok base
      else .ok base
  | none =>
  match matchDayMonthYear bv with
  | some (dayS, monS, yearS) =>
    match parseIntGo 16 yearS with
    | none => .error (.goError "not a year")
    | some year =>
      match parseIntGo 8 dayS with
      | none => .error (.goError "not a month")
      | some day =>
        if 0 < day ∧ day < 32 then
          let mi := localeMonth loc.months monS + 1
          if 0 < mi then .ok { base with numberValue := dateUnixGo year mi day }
          else .ok base
        else .ok base
  | none =>
  match matchMonthYear bv with
  | some (monS, yearS) =>
    match parseIntGo 16 yearS with
    | none => .error (.goError "not a year")
    | some year =>
      let mi := localeMonth loc.months monS + 1
      if 0 < mi then
        let first := dateUnixGo year mi 1
        .ok { base with numberValue := first,
                        offsetValue := dateUnixGo year (mi + 1) 0 - first }
      else .ok base
  | none =>
  match matchDMYsep bv with
  | some (dayS, monthS, yearS) =>
    match parseIntGo 16 yearS with
    | none => .error (.goError "not a year")
    | some year =>
      match parseIntGo 8 monthS with
      | none => .error (.goError "not a month")
      | some month =>
        match parseIntGo 8 dayS with
        | none => .error (.goError "not a day")
        | some day =>
          if 1 ≤ day ∧ day ≤ 31 ∧ 1 ≤ month ∧ month ≤ 12 then
            .ok { base with numberValue := dateUnixGo year month day }
          else .ok base
  | none =>
  match matchYMD bv with
  | some (yearS, monthS, dayS) =>
    match parseIntGo 16 yearS with
    | none => .error (.goError "not a year")
    | some year =>
      match parseIntGo 8 monthS with
      | none => .error (.goError "not a month")
      | some month =>
        match parseIntGo 8 dayS with
        | none => .error (.goError "not a day")
        | some day =>
          if 1 ≤ day ∧ day ≤ 31 ∧ 1 ≤ month ∧ month ≤ 12 then
            .ok { base with numberValue := dateUnixGo year month day }
          else .ok base
  | none =>
  let mi0 := localeMonth loc.months bv
  if mi0 > -1 then
    let month := mi0 + 1
    let cy := if month > now.month then now.year - 1 else now.year
    let first := dateUnixGo cy month 1
    .ok { base with numberValue := first,
                    offsetValue := dateUnixGo cy (month + 1) 0 - first }
  else if bv.length = 4 then
    match parseIntGo 16 bv with
    | some year =>
      if 1922 < year ∧ year ≤ now.year then
        let first := dateUnixGo year 1 1
        .ok { base with numberValue := first,
                        offsetValue := dateUnixGo year 12 31 - first }
      else .ok base
    | none => .ok base
  else .ok base

/-- The `HEADER_S_SUM` arm of `prepare`. With a comma, all commas are
stripped from the (untrimmed, lowercased) group-2 value; without one,
`00` and `99` are appended to the trimmed value. -/
def prepareSumCmp (base : comparator) (value : Str) : GoRes comparator :=
  if base.bytesValue.contains ',' then
    match parseIntGo 64 (value.filter (fun c => c ≠ ',')) with
    | none => .error (.goError "not an amount")
    | some sum => .ok { base with numberValue := sum }
  else
    match parseIntGo 64 (base.bytesValue ++ ['0', '0']) with
    | none => .error (.goError "not an amount")
    | some sum =>
      match parseIntGo 64 (base.bytesValue ++ ['9', '9']) with
      | none => .error (.goError "not an amount")
      | some mx => .ok { base with numberValue := sum, offsetValue := mx - sum }

/-- The `HEADER_0_BALANCE` arm of `prepare`. -/
def prepareBalCmp (base : comparator) : GoRes comparator :=
  match parseIntGo 32 base.bytesValue with
  | none => .error (.goError "not a number")
  | some v => .ok { base with numberValue := v }

/-- One condition of a formula body: regex extraction plus the typed
coercion switch of `prepare`. -/
def prepareCond (loc : Locale) (now : Now) (cs : scope) (condition : Str) :
    GoRes comparator :=
  match condRegexFind condition with
  | none =>
    .ok { header := Char.ofNat 0, operator := Char.ofNat 0, bytesValue := [],
          numberValue := 0, offsetValue := 0,
          scopeL := cs.isLeftInclusive, scopeR := cs.isRightInclusive }
  | some (h, o, g2) =>
    let value := lowerStr g2
    let base : comparator :=
      { header := h, operator := o, bytesValue := trimGo value,
        numberValue := 0, offsetValue := 0,
        scopeL := cs.isLeftInclusive, scopeR := cs.isRightInclusive }
    if h = 'd' then prepareDateCmp loc now base
    else if h = 's' then prepareSumCmp base value
    else if h = 'z' then prepareBalCmp base
    else .ok base

/-- The condition loop of `prepare`: the first empty condition breaks the
loop (remaining conditions are dropped). -/
def prepareList (loc : Locale) (now : Now) (cs : scope) :
    List Str → GoRes (List comparator)
  | [] => .ok []
  | c :: rest =>
    if c = [] then .ok []
    else
      match prepareCond loc now cs c with
      | .error e => .error e
      | .ok cmp =>
        match prepareList loc now cs rest with
        | .error e => .error e
        | .ok l => .ok (cmp :: l)

/-- `prepare`: split the trimmed formula body on `;` and prepare each
condition. -/
def prepareGo (loc : Locale) (now : Now) (cs : scope) (cleanQuery : Str) :
    GoRes (List comparator) :=
  prepareList loc now cs ((trimGo cleanQuery).splitOn ';')

/-! ## The expression compiler -/

/-- A compiler token: formula (`cls = 1`, with inclusivity flag bits) or
operator (`cls = 0`). -/
structure token where
  value : Str
  flags : Nat
  cls : Nat
deriving DecidableEq, Repr

/-- `token.IsFormula`. -/
def token.IsFormula (t : token) : Bool := t.cls = 1

/-- Go's combination of two `IndexRune` results (`-1` encoded as `none`):
the minimum when both exist, otherwise whichever exists. -/
def combineIdx : Option Nat → Option Nat → Option Nat
  | some x, some y => some (min x y)
  | none, y => y
  | x, none => x

/-- `compile`, with an explicit fuel argument so the definition is
structurally recursive. Every recursive call strictly shortens the string,
so fuel `length + 1` (as supplied by `compileGo`) never runs out. -/
def compileFuel : Nat → Str → List token → Except String (List token)
  | 0, _, _ => .error "out of fuel"
  | fuel + 1, s, stack =>
    if s = [] then .ok stack
    else if stack = [] ∧ s.count '(' + s.count '[' ≠ s.count ')' + s.count ']' then
      .error "number of opened paranthesis don't match with closed ones"
    else
      match s with
      | [] => .ok stack
      | chr :: _ =>
        if chr = '[' ∨ chr = '(' then
          match combineIdx (idxOf ']' s) (idxOf ')' s) with
          | none => .error "formula does't have a closing parenthesis"
          | some cl =>
            let flags := (if chr = '[' then 2 else 0) +
                         (if s.getD cl ' ' = ']' then 1 else 0)
            let value := clean ((s.take cl).drop 1)
            let stack2 := stack ++ [⟨value, flags, 1⟩]
            if s.drop (cl + 1) ≠ [] then compileFuel fuel (s.drop (cl + 1)) stack2
            else .ok stack2
        else
          match combineIdx (idxOf '[' s) (idxOf '(' s) with
          | none =>
            if (idxOf ']' s ≠ none ∨ idxOf ')' s ≠ none) ∧ stack ≠ [] then
              .error "unsupported nested paranthesis"
            else .error "expected opening parenthesis after operator"
          | some op =>
            let operator := clean (s.take op)
            if operator.length ≠ 1 then
              .error "unexpected operation between collections"
            else
              let stack2 := stack ++ [⟨operator, 0, 0⟩]
              if s.drop op ≠ [] then compileFuel fuel (s.drop op) stack2
              else .ok stack2

/-- `compile(str, &stack)` started from an empty stack, as `Filter` does. -/
def compileGo (s : Str) : Except String (List token) :=
  compileFuel (s.length + 1) s []

/-! ## The evaluator -/

/-- The record loop inside `query` for one comparator: keep matches,
return the first `Compare` error. -/
def compareList (subs : List (Str × Str)) (f : comparator) :
    Collection → GoRes Collection
  | [] => .ok []
  | r :: rest =>
    match Compare subs f r with
    | .error e => .error e
    | .ok true =>
      match compareList subs f rest with
      | .error e => .error e
      | .ok l => .ok (r :: l)
    | .ok false => compareList subs f rest

/-- `query`: conjunctive filtering, one comparator at a time. -/
def queryGo (subs : List (Str × Str)) : Collection → List comparator → GoRes Collection
  | records, [] => .ok records
  | records, f :: fs =>
    if records = [] then .ok records
    else
      match compareList subs f records with
      | .error e => .error e
      | .ok newRecords => queryGo subs newRecords fs

/-- The `_mem` dedup map, as an association list in insertion order
(one fixed realization of Go's unordered map). -/
abbrev Mem := List (Str × Record)

/-- Map insertion (`_mem[k] = v`): overwrite in place or append. -/
def memSet : Mem → Str → Record → Mem
  | [], k, v => [(k, v)]
  | (k0, v0) :: rest, k, v =>
    if k0 = k then (k, v) :: rest else (k0, v0) :: memSet rest k v

/-- Map key lookup (`_, ok := _mem[k]`). -/
def memHas (m : Mem) (k : Str) : Bool := m.any (fun p => p.1 = k)

/-- Map key deletion (`delete(_mem, k)`). -/
def memDel (m : Mem) (k : Str) : Mem := m.filter (fun p => p.1 ≠ k)

/-- The `_UNION` loop body: append records whose canonical key is absent,
updating the dedup map. -/
def stageUnion (mr : Mem × Collection) (out : Collection) : Mem × Collection :=
  out.foldl
    (fun mr r2 =>
      if memHas mr.1 r2.canonKey then mr
      else (memSet mr.1 r2.canonKey r2, mr.2 ++ [r2]))
    mr

/-- Inclusivity scope of a formula token (`flags & 0b10`, `flags & 0b01`). -/
def token.scopeOf (t : token) : scope :=
  ⟨t.flags &&& 2 ≠ 0, t.flags &&& 1 ≠ 0⟩

/-- The `(operator, formula)` pair loop of `Filter`. Reading `stack[i+1]`
past the end of the stack is a Go panic, modelled by `.goPanic`. -/
def runOps (loc : Locale) (now : Now) (c : Collection) :
    List token → Mem → Collection → GoRes Collection
  | [], _, results => .ok results
  | [_], _, _ => .error (.goPanic "runtime error: index out of range")
  | op :: ls :: rest, mem, results =>
    if op.IsFormula then .error (.goError "incorrect query, missing operation")
    else if ¬ ls.IsFormula then .error (.goError "incorrect query, missing formula")
    else
      match prepareGo loc now ls.scopeOf ls.value with
      | .error e => .error e
      | .ok filters =>
        match op.value with
        | [] => .error (.goPanic "runtime error: index out of range")
        | ov :: _ =>
          if ov = '+' then
            match queryGo loc.unicode c filters with
            | .error e => .error e
            | .ok out =>
              let st := stageUnion (mem, results) out
              runOps loc now c rest st.1 st.2
          else if ov = '-' then
            match queryGo loc.unicode results filters with
            | .error e => .error e
            | .ok out =>
              let mem2 := out.foldl (fun m r2 => memDel m r2.canonKey) mem
              runOps loc now c rest mem2 (mem2.map (fun p => p.2))
          else .error (.goError ("unsupported operator: " ++ toString ov.toNat))

/-- Evaluation of a compiled token stream against a collection: the first
formula stages results and the dedup map, then the pair loop runs.
(The final sort is applied by `FilterGo`.) -/
def evalStackGo (loc : Locale) (now : Now) (c : Collection) (stack : List token) :
    GoRes Collection :=
  match stack with
  | [] => .ok c
  | start :: rest =>
    if start.IsFormula then
      match prepareGo loc now start.scopeOf start.value with
      | .error e => .error e
      | .ok filters =>
        match queryGo loc.unicode c filters with
        | .error e => .error e
        | .ok out =>
          runOps loc now c rest (out.foldl (fun m r => memSet m r.canonKey r) []) out
    else .error (.goError "incorrect query")

/-- The comparison closure passed to `sort.SliceStable` in `Filter`:
equal dates compare by amount ascending, otherwise later date first. -/
def recLess (a b : Record) : Bool :=
  if a.dateU = b.dateU then decide (a.amount < b.amount)
  else decide (b.dateU < a.dateU)

/-- Stable insertion: a new record goes before the first element it is not
greater than. -/
def insertRec (x : Record) : Collection → Collection
  | [] => [x]
  | y :: rest => if recLess y x then y :: insertRec x rest else x :: y :: rest

/-- `sort.SliceStable(results, less)`: a stable sort under `recLess`
(stable sorts are unique, so stable insertion sort realizes it). -/
def sortRecords : Collection → Collection
  | [] => []
  | x :: rest => insertRec x (sortRecords rest)

/-- `Collection.Filter`: compile the cleaned query, return the collection
unchanged on an empty token stream, otherwise evaluate and stable-sort. -/
def FilterGo (loc : Locale) (now : Now) (c : Collection) (q : Str) : GoRes Collection :=
  match compileGo (clean q) with
  | .error e => .error (.goError e)
  | .ok [] => .ok c
  | .ok (t :: ts) =>
    match evalStackGo loc now c (t :: ts) with
    | .error e => .error e
    | .ok res => .ok (sortRecords res)

/-! ## Ingestion -/

/-- `mustParseAmount`: clean the cell, strip `.`, parse as `int64`.
`none` models the `throw` panic. -/
def mustParseAmountGo (s : Str) : Option Int :=
  parseIntGo 64 ((clean s).filter (fun c => c ≠ '.'))

/-- The sub-item loop of `New` for a compound label row: each `+`-separated
part is cleaned, split at its first space into sub-amount and sub-label, and
emitted as one record with the sub-amount multiplied by `k`; the running
total is accumulated. -/
def subItemsGo (sender receiver dt : Str) (k : Int) :
    List Str → GoRes (Collection × Int)
  | [] => .ok ([], 0)
  | each :: rest =>
    let pr := splitN2 (clean each)
    match mustParseAmountGo pr.1 with
    | none => .error (.goPanic "strconv.ParseInt: parsing: invalid syntax")
    | some a =>
      let subtotal := a * k
      match pr.2 with
      | none => .error (.goPanic "runtime error: index out of range")
      | some lbl =>
        match parseDateGo (clean dt) with
        | none => .error (.goPanic "parsing time: cannot parse")
        | some du =>
          match subItemsGo sender receiver dt k rest with
          | .error e => .error e
          | .ok (rs, acc) =>
            .ok (⟨sender, receiver, clean lbl, du, subtotal⟩ :: rs, subtotal + acc)

/-- One iteration of the row loop in `New`, for a five-column row: compound
labels (containing `+`) expand into sub-item records with the sum-consistency
check; other rows emit a single record. -/
def ingestRow (row : List Str) : GoRes Collection :=
  match row with
  | [c0, c1, c2, c3, c4] =>
    if c2.contains '+' then
      match mustParseAmountGo c4 with
      | none => .error (.goPanic "strconv.ParseInt: parsing: invalid syntax")
      | some sum =>
        let k : Int := if sum < 0 then -1 else 1
        match subItemsGo (clean c0) (clean c1) c3 k (c2.splitOn '+') with
        | .error e => .error e
        | .ok (rs, acc) =>
          if sum - acc ≠ 0 then
            .error (.goPanic ("doesn't add up " ++ toString (sum - acc)))
          else .ok rs
    else
      match parseDateGo (clean c3) with
      | none => .error (.goPanic "parsing time: cannot parse")
      | some du =>
        match mustParseAmountGo c4 with
        | none => .error (.goPanic "strconv.ParseInt: parsing: invalid syntax")
        | some amt => .ok [⟨clean c0, clean c1, clean c2, du, amt⟩]
  | _ => .error (.goPanic "runtime error: index out of range")

/-- Deduplication by canonical key, following the spec's words (first record
per key is kept); stated by the union-idempotence claim as the expected
value of evaluating a duplicated formula. -/
def dedupByKeyAux (seen : List Str) : Collection → Collection
  | [] => []
  | r :: rest =>
    if seen.contains r.canonKey then dedupByKeyAux seen rest
    else r :: dedupByKeyAux (r.canonKey :: seen) rest

/-- Deduplication by canonical key (spec-side comparison definition). -/
def dedupByKey (l : Collection) : Collection := dedupByKeyAux [] l

/-- The sort key test used to state stability: date and amount both equal. -/
def keyIs (d a : Int) (r : Record) : Bool := decide (r.dateU = d ∧ r.amount = a)

/-! # Theorems -/

/-- C7: for every collection and every query that is empty after whitespace
normalization, `Filter` returns the input collection unchanged (same records,
same order) and no error: the empty token stream takes the early-return path
before any evaluation or sorting. -/
theorem claim_C7_empty_query_identity (loc : Locale) (now : Now) (c : Collection)
    (q : Str) (h : clean q = []) : FilterGo loc now c q = .ok c := by
  unfold FilterGo
  rw [h]
  rfl

/-- Witness for C7 at a whitespace-only query and a one-record collection. -/
theorem claim_C7_empty_query_identity_witness :
    FilterGo ⟨[], []⟩ ⟨2026, 10⟩ [⟨['a'], ['b'], ['c'], 0, 5⟩] [' ', ' '] =
      .ok [⟨['a'], ['b'], ['c'], 0, 5⟩] :=
  claim_C7_empty_query_identity ⟨[], []⟩ ⟨2026, 10⟩ _ [' ', ' '] (by decide)

/-- C6 (counterexample): `Filter` with the query `[]` does not return the
collection in its original order: the empty formula keeps all records, but the
final stable sort still runs, so a collection not already in date-descending
order is reordered. -/
theorem claim_C6_counterexample :
    FilterGo ⟨[], []⟩ ⟨2026, 10⟩
        [⟨['a'], ['b'], ['c'], 0, 5⟩, ⟨['a'], ['b'], ['c'], 86400, 5⟩] ['[', ']'] =
      .ok [⟨['a'], ['b'], ['c'], 86400, 5⟩, ⟨['a'], ['b'], ['c'], 0, 5⟩] ∧
    ([⟨['a'], ['b'], ['c'], 86400, 5⟩, ⟨['a'], ['b'], ['c'], 0, 5⟩] : Collection) ≠
      [⟨['a'], ['b'], ['c'], 0, 5⟩, ⟨['a'], ['b'], ['c'], 86400, 5⟩] := by
  constructor
  · rfl
  · decide

/-- C6 (amended): `Filter` with the query `[]` succeeds and returns exactly
the input records (the empty formula body yields zero comparators, which keeps
the collection), but in the order imposed by the final stable sort — the input
order is preserved only when the collection is already sorted. -/
theorem claim_C6_empty_formula (loc : Locale) (now : Now) (c : Collection) :
    FilterGo loc now c ['[', ']'] = .ok (sortRecords c) := by
  rfl

/-- C5: evaluation of the token stream `[formula, formula]` (an even-length
stream where an operator is missing) reads `stack[i+1]` past the end of the
stack before any position check runs, which in Go is an index-out-of-range
panic — not an error value. The query `[][]` compiles successfully to two
adjacent formula tokens and then crashes `Filter`. -/
theorem claim_C5_adjacent_formulas_crash :
    FilterGo ⟨[], []⟩ ⟨2026, 10⟩ [⟨['a'], ['b'], ['c'], 0, 5⟩]
        ['[', ']', '[', ']'] =
      .error (.goPanic "runtime error: index out of range") := by
  rfl

/-! ## Properties of the stable sort -/

theorem recLess_asymm {a b : Record} (h : recLess a b = true) : recLess b a = false := by
  simp only [recLess] at *
  split at h <;> split <;> simp_all <;> omega

theorem recLess_negtrans {a b c : Record} (h₁ : recLess a b = false)
    (h₂ : recLess b c = false) : recLess a c = false := by
  simp only [recLess] at *
  split at h₁ <;> split at h₂ <;> split <;> simp_all <;> omega

theorem insertRec_perm (x : Record) (l : Collection) :
    List.Perm (insertRec x l) (x :: l) := by
  induction l with
  | nil => simp [insertRec]
  | cons y rest ih =>
    simp only [insertRec]
    split
    · exact ((ih.cons y).trans (List.Perm.swap x y rest))
    · exact List.Perm.refl _

theorem sortRecords_perm (l : Collection) : List.Perm (sortRecords l) l := by
  induction l with
  | nil => simp [sortRecords]
  | cons x rest ih => exact (insertRec_perm x (sortRecords rest)).trans (ih.cons x)

theorem insertRec_sorted (x : Record) (l : Collection)
    (h : l.Pairwise (fun a b => recLess b a = false)) :
    (insertRec x l).Pairwise (fun a b => recLess b a = false) := by
  induction l with
  | nil => simp [insertRec]
  | cons y rest ih =>
    rcases List.pairwise_cons.mp h with ⟨hy, hrest⟩
    simp only [insertRec]
    cases hyx : recLess y x with
    | true =>
      simp only [if_pos rfl]
      refine List.pairwise_cons.mpr ⟨?_, ih hrest⟩
      intro z hz
      rcases List.mem_cons.mp ((insertRec_perm x rest).mem_iff.mp hz) with rfl | hzr
      · exact recLess_asymm hyx
      · exact hy z hzr
    | false =>
      simp only [Bool.false_eq_true, if_false]
      refine List.pairwise_cons.mpr ⟨?_, h⟩
      intro z hz
      rcases List.mem_cons.mp hz with rfl | hzr
      · exact hyx
      · exact recLess_negtrans (hy z hzr) hyx

theorem sortRecords_sorted (l : Collection) :
    (sortRecords l).Pairwise (fun a b => recLess b a = false) := by
  induction l with
  | nil => simp [sortRecords]
  | cons x rest ih => exact insertRec_sorted x (sortRecords rest) ih

theorem keyIs_recLess_false {d a : Int} {x y : Record}
    (hx : keyIs d a x = true) (hy : keyIs d a y = true) : recLess y x = false := by
  simp only [keyIs, decide_eq_true_eq] at hx hy
  simp only [recLess]
  split <;> simp_all

theorem insertRec_filter (x : Record) (l : Collection) (d a : Int) :
    (insertRec x l).filter (keyIs d a) =
      if keyIs d a x then x :: l.filter (keyIs d a) else l.filter (keyIs d a) := by
  induction l with
  | nil => cases h : keyIs d a x <;> simp [insertRec, List.filter_cons, h]
  | cons y rest ih =>
    simp only [insertRec]
    cases hyx : recLess y x with
    | true =>
      cases hx : keyIs d a x with
      | true =>
        have hy : keyIs d a y = false := by
          cases hy : keyIs d a y
          · rfl
          · rw [keyIs_recLess_false hx hy] at hyx
            cases hyx
        simp [List.filter_cons, hy, ih, hx]
      | false =>
        cases hy : keyIs d a y <;> simp [List.filter_cons, hy, ih, hx]
    | false =>
      cases hx : keyIs d a x <;> simp [List.filter_cons, hx]

theorem sortRecords_filter (l : Collection) (d a : Int) :
    (sortRecords l).filter (keyIs d a) = l.filter (keyIs d a) := by
  induction l with
  | nil => simp [sortRecords]
  | cons x rest ih =>
    simp only [sortRecords]
    rw [insertRec_filter]
    cases hx : keyIs d a x <;> simp [List.filter_cons, hx, ih]

/-- C1 (amended: restricted to queries whose compiled token stream is
non-empty; the empty stream takes the early return that skips the sort).
Whenever `Filter` succeeds on such a query, its result is the stable sort of
the evaluator's pre-sort sequence: it is ordered by date descending with ties
broken by amount ascending, it is a permutation of the pre-sort sequence, and
records of equal date and amount keep their pre-sort relative order. -/
theorem claim_C1_sorted_stable (loc : Locale) (now : Now) (c : Collection)
    (q : Str) (stack : List token) (out : Collection)
    (hc : compileGo (clean q) = .ok stack) (hne : stack ≠ [])
    (hf : FilterGo loc now c q = .ok out) :
    ∃ l, evalStackGo loc now c stack = .ok l ∧ out = sortRecords l ∧
      out.Pairwise (fun a b => recLess b a = false) ∧
      (∀ d a, out.filter (keyIs d a) = l.filter (keyIs d a)) ∧
      List.Perm out l := by
  unfold FilterGo at hf
  rw [hc] at hf
  match stack, hne with
  | t :: ts, _ =>
    dsimp only at hf
    cases he : evalStackGo loc now c (t :: ts) with
    | error e =>
      rw [he] at hf
      simp at hf
    | ok l =>
      rw [he] at hf
      simp only [Except.ok.injEq] at hf
      subst hf
      exact ⟨l, rfl, rfl, sortRecords_sorted l,
        fun d a => sortRecords_filter l d a, sortRecords_perm l⟩

/-- Witness for C1 at the query `[]` over a two-record collection. -/
theorem claim_C1_sorted_stable_witness :
    ∃ l, evalStackGo ⟨[], []⟩ ⟨2026, 10⟩
        [⟨['a'], ['b'], ['c'], 0, 5⟩, ⟨['a'], ['b'], ['c'], 86400, 5⟩]
        [⟨[], 3, 1⟩] = .ok l ∧
      ([⟨['a'], ['b'], ['c'], 86400, 5⟩, ⟨['a'], ['b'], ['c'], 0, 5⟩] : Collection) =
        sortRecords l ∧
      ([⟨['a'], ['b'], ['c'], 86400, 5⟩, ⟨['a'], ['b'], ['c'], 0, 5⟩] : Collection).Pairwise
        (fun a b => recLess b a = false) ∧
      (∀ d a,
        ([⟨['a'], ['b'], ['c'], 86400, 5⟩, ⟨['a'], ['b'], ['c'], 0, 5⟩] : Collection).filter
            (keyIs d a) =
          l.filter (keyIs d a)) ∧
      List.Perm ([⟨['a'], ['b'], ['c'], 86400, 5⟩, ⟨['a'], ['b'], ['c'], 0, 5⟩] : Collection) l :=
  claim_C1_sorted_stable ⟨[], []⟩ ⟨2026, 10⟩
    [⟨['a'], ['b'], ['c'], 0, 5⟩, ⟨['a'], ['b'], ['c'], 86400, 5⟩]
    ['[', ']'] [⟨[], 3, 1⟩] _ (by rfl) (by decide) (by rfl)

/-! ## Properties of the dedup map -/

theorem memHas_nil (k : Str) : memHas [] k = false := rfl

theorem memHas_cons (k0 : Str) (v0 : Record) (rest : Mem) (k : Str) :
    memHas ((k0, v0) :: rest) k = (decide (k0 = k) || memHas rest k) := rfl

theorem memHas_memSet_self (m : Mem) (k : Str) (v : Record) :
    memHas (memSet m k v) k = true := by
  induction m with
  | nil => simp [memSet, memHas_cons, memHas_nil]
  | cons p rest ih =>
    obtain ⟨k0, v0⟩ := p
    by_cases h : k0 = k
    · simp [memSet, h, memHas_cons]
    · simp only [memSet, if_neg h, memHas_cons, ih, Bool.or_true]

theorem memHas_memSet_mono (m : Mem) (k : Str) (v : Record) (q : Str)
    (h : memHas m q = true) : memHas (memSet m k v) q = true := by
  induction m with
  | nil => rw [memHas_nil] at h; cases h
  | cons p rest ih =>
    obtain ⟨k0, v0⟩ := p
    rw [memHas_cons] at h
    by_cases hk : k0 = k
    · subst hk
      simpa [memSet, memHas_cons] using h
    · simp only [memSet, if_neg hk, memHas_cons]
      rcases Bool.or_eq_true_iff.mp h with h1 | h2
      · simp [h1]
      · simp [ih h2]

theorem foldl_memSet_has (out : Collection) :
    ∀ (m0 : Mem) (r : Record), (r ∈ out ∨ memHas m0 r.canonKey = true) →
      memHas (out.foldl (fun m r => memSet m r.canonKey r) m0) r.canonKey = true := by
  induction out with
  | nil =>
    rintro m0 r (h | h)
    · cases h
    · exact h
  | cons y rest ih =>
    rintro m0 r (h | h)
    · rcases List.mem_cons.mp h with rfl | hr
      · exact ih _ _ (Or.inr (memHas_memSet_self _ _ _))
      · exact ih _ _ (Or.inl hr)
    · exact ih _ _ (Or.inr (memHas_memSet_mono _ _ _ _ h))

theorem stageUnion_noop :
    ∀ (out : Collection) (mr : Mem × Collection),
      (∀ r ∈ out, memHas mr.1 r.canonKey = true) → stageUnion mr out = mr := by
  intro out
  induction out with
  | nil => intro mr _; rfl
  | cons y rest ih =>
    intro mr h
    have hy := h y (by simp)
    simp only [stageUnion, List.foldl_cons, hy, if_true]
    exact ih mr (fun r hr => h r (List.mem_cons_of_mem _ hr))

/-- C3 (amended): for every query compiling to `[formula, +, formula]` with
the same formula twice, evaluation returns exactly the result sequence of the
single formula: the `+` branch evaluates its formula against the original
input collection and appends only records whose canonical key is absent from
the dedup map, and the first evaluation already staged every key. (This
coincides with the dedup of the single formula's result exactly when that
result has pairwise distinct canonical keys; the staged result itself is not
deduplicated.) -/
theorem claim_C3_union_idempotent (loc : Locale) (now : Now) (c : Collection)
    (q : Str) (f op : token)
    (hc : compileGo (clean q) = .ok [f, op, f])
    (hf : f.IsFormula = true) (hop : op.IsFormula = false)
    (hopv : op.value = ['+']) :
    evalStackGo loc now c [f, op, f] = evalStackGo loc now c [f] ∧
    FilterGo loc now c q =
      (evalStackGo loc now c [f]).map sortRecords := by
  have hmain : evalStackGo loc now c [f, op, f] = evalStackGo loc now c [f] := by
    simp only [evalStackGo, hf, if_true]
    cases hp : prepareGo loc now f.scopeOf f.value with
    | error e => rfl
    | ok filters =>
      dsimp only
      cases hq : queryGo loc.unicode c filters with
      | error e => rfl
      | ok out =>
        dsimp only
        have hrhs : runOps loc now c []
            (out.foldl (fun m r => memSet m r.canonKey r) []) out = .ok out := rfl
        rw [hrhs]
        simp only [runOps, hop, hf, Bool.false_eq_true, if_false, Bool.not_eq_true',
          not_false_iff, if_true, Bool.not_true, hp]
        rw [hopv]
        dsimp only
        rw [if_pos rfl, hq]
        dsimp only
        have hst : stageUnion
            (out.foldl (fun m r => memSet m r.canonKey r) [], out) out =
            (out.foldl (fun m r => memSet m r.canonKey r) [], out) := by
          apply stageUnion_noop
          intro r hr
          exact foldl_memSet_has out [] r (Or.inl hr)
        rw [hst]
        simp
  refine ⟨hmain, ?_⟩
  unfold FilterGo
  rw [hc]
  dsimp only
  rw [hmain]
  cases evalStackGo loc now c [f] with
  | error e => rfl
  | ok res => rfl

/-- Witness for C3 at the query `[]+[]` over a one-record collection. -/
theorem claim_C3_union_idempotent_witness :
    evalStackGo ⟨[], []⟩ ⟨2026, 10⟩ [⟨['a'], ['b'], ['c'], 0, 5⟩]
        [⟨[], 3, 1⟩, ⟨['+'], 0, 0⟩, ⟨[], 3, 1⟩] =
      evalStackGo ⟨[], []⟩ ⟨2026, 10⟩ [⟨['a'], ['b'], ['c'], 0, 5⟩] [⟨[], 3, 1⟩] ∧
    FilterGo ⟨[], []⟩ ⟨2026, 10⟩ [⟨['a'], ['b'], ['c'], 0, 5⟩]
        ('[' :: ']' :: '+' :: '[' :: ']' :: []) =
      (evalStackGo ⟨[], []⟩ ⟨2026, 10⟩ [⟨['a'], ['b'], ['c'], 0, 5⟩]
        [⟨[], 3, 1⟩]).map sortRecords :=
  claim_C3_union_idempotent ⟨[], []⟩ ⟨2026, 10⟩ [⟨['a'], ['b'], ['c'], 0, 5⟩]
    ('[' :: ']' :: '+' :: '[' :: ']' :: [])
    ⟨[], 3, 1⟩ ⟨['+'], 0, 0⟩ (by rfl) (by decide) (by decide) (by decide)

/-- C3 (counterexample): on a collection containing the same record twice,
`[]+[]` returns both copies, while the dedup by canonical key of the result
of `[]` keeps only one — so `A + A` does not yield the dedup of `A`. -/
theorem claim_C3_counterexample :
    FilterGo ⟨[], []⟩ ⟨2026, 10⟩
        [⟨['a'], ['b'], ['c'], 0, 5⟩, ⟨['a'], ['b'], ['c'], 0, 5⟩]
        ('[' :: ']' :: '+' :: '[' :: ']' :: []) =
      .ok [⟨['a'], ['b'], ['c'], 0, 5⟩, ⟨['a'], ['b'], ['c'], 0, 5⟩] ∧
    FilterGo ⟨[], []⟩ ⟨2026, 10⟩
        [⟨['a'], ['b'], ['c'], 0, 5⟩, ⟨['a'], ['b'], ['c'], 0, 5⟩]
        ('[' :: ']' :: []) =
      .ok [⟨['a'], ['b'], ['c'], 0, 5⟩, ⟨['a'], ['b'], ['c'], 0, 5⟩] ∧
    dedupByKey [⟨['a'], ['b'], ['c'], 0, 5⟩, ⟨['a'], ['b'], ['c'], 0, 5⟩] =
      [⟨['a'], ['b'], ['c'], 0, 5⟩] ∧
    ([⟨['a'], ['b'], ['c'], 0, 5⟩, ⟨['a'], ['b'], ['c'], 0, 5⟩] : Collection) ≠
      [⟨['a'], ['b'], ['c'], 0, 5⟩] := by
  refine ⟨by rfl, by rfl, by rfl, by decide⟩

/-! ## Totality of the text matcher -/

theorem char_toNat_ofNat_valid {n : Nat} (h1 : 97 ≤ n) (h2 : n ≤ 122) :
    (Char.ofNat n).toNat = n := by
  have h : n.isValidChar := by left; omega
  simp only [Char.ofNat, h, dif_pos, Char.ofNatAux, Char.toNat]
  simp [UInt32.ofNat', UInt32.toNat]

theorem lowerChar_eq_quote {c : Char} (h : lowerChar c = '"') : c = '"' := by
  unfold lowerChar at h
  split at h
  · rename_i hc
    exfalso
    have h1 : 65 ≤ c.toNat := hc.1
    have h2 : c.toNat ≤ 90 := hc.2
    have ht := congrArg Char.toNat h
    rw [char_toNat_ofNat_valid (by omega) (by omega)] at ht
    have hq : ('"' : Char).toNat = 34 := by decide
    omega
  · exact h

theorem doesItMatch_total (kw v : Str) (h1 : kw ≠ []) (h2 : kw ≠ ['"']) :
    ∃ b, doesItMatchGo [] kw v = some b := by
  unfold doesItMatchGo
  simp only [translateGo, List.foldl_nil]
  cases hk : lowerStr kw with
  | nil => exact absurd (List.map_eq_nil_iff.mp hk) h1
  | cons c rest =>
    dsimp only
    by_cases hq : c = '"' ∧ (c :: rest).getLast? = some '"'
    · rw [if_pos hq]
      cases rest with
      | nil =>
        exfalso
        cases kw with
        | nil => exact h1 rfl
        | cons a as =>
          simp only [lowerStr, List.map_cons, List.cons.injEq] at hk
          rcases hk with ⟨ha, has⟩
          have : as = [] := List.map_eq_nil_iff.mp has
          subst this
          subst ha
          exact h2 (by rw [lowerChar_eq_quote hq.1])
      | cons c2 rest2 => exact ⟨_, rfl⟩
    · rw [if_neg hq]
      exact ⟨_, rfl⟩

theorem firstTextMatch_total (v : Str) (alts : List Str)
    (h : ∀ alt ∈ alts, alt ≠ [] ∧ alt ≠ ['"']) :
    ∃ b, firstTextMatch [] v alts = some b := by
  induction alts with
  | nil => exact ⟨false, rfl⟩
  | cons kw rest ih =>
    obtain ⟨b, hb⟩ := doesItMatch_total kw v (h kw (by simp)).1 (h kw (by simp)).2
    unfold firstTextMatch
    rw [hb]
    cases b with
    | true => exact ⟨true, rfl⟩
    | false => exact ih (fun alt ha => h alt (List.mem_cons_of_mem _ ha))

/-- C9 (amended): with the default locale, evaluation of a text comparator is
total — never accesses a string out of bounds — under the precondition that
every comma-separated alternative of the condition's value is non-empty AND
that no alternative is the single character `"` (a one-character quote passes
the quoted-literal test and then takes the slice `s[1:0]`, a Go panic); and
without the non-emptiness precondition, for example for the value `alex,`
matched against a non-matching record, the matcher reads byte 0 of an empty
string. -/
theorem claim_C9_text_match_total :
    (∀ bv v : Str, (∀ alt ∈ bv.splitOn ',', alt ≠ [] ∧ alt ≠ ['"']) →
      ∃ b, isMatchingTextGo [] bv v = some b) ∧
    isMatchingTextGo [] ('a' :: 'l' :: 'e' :: 'x' :: ',' :: [])
      ('b' :: 'o' :: 'b' :: []) = none := by
  constructor
  · intro bv v h
    exact firstTextMatch_total v _ h
  · rfl

/-- Witness for C9 at the alternatives `alex` and a non-matching value. -/
theorem claim_C9_text_match_total_witness :
    ∃ b, isMatchingTextGo [] ('a' :: 'l' :: 'e' :: 'x' :: [])
      ('b' :: 'o' :: 'b' :: []) = some b :=
  claim_C9_text_match_total.1 ('a' :: 'l' :: 'e' :: 'x' :: [])
    ('b' :: 'o' :: 'b' :: []) (by decide)

/-- C9 (counterexample): the single-character alternative `"` is non-empty,
satisfying the claim's precondition, yet the matcher still goes out of
bounds (Go's slice `s[1:0]`), so non-emptiness alone does not give totality. -/
theorem claim_C9_counterexample :
    (∀ alt ∈ (['"'] : Str).splitOn ',', alt ≠ []) ∧
    isMatchingTextGo [] ['"'] ('b' :: 'o' :: 'b' :: []) = none := by
  constructor
  · decide
  · rfl

/-! ## Compound-row ingestion -/

theorem subItemsGo_spec (sender receiver dt : Str) (k : Int) :
    ∀ (parts : List Str) (rs : Collection) (acc : Int),
      subItemsGo sender receiver dt k parts = .ok (rs, acc) →
      acc = (rs.map Record.amount).sum ∧
      List.Forall₂ (fun (each : Str) (r : Record) =>
        ∃ a, mustParseAmountGo (splitN2 (clean each)).1 = some a ∧ r.amount = a * k)
        parts rs := by
  intro parts
  induction parts with
  | nil =>
    intro rs acc h
    simp only [subItemsGo, Except.ok.injEq, Prod.mk.injEq] at h
    obtain ⟨h1, h2⟩ := h
    subst h1
    subst h2
    exact ⟨rfl, List.Forall₂.nil⟩
  | cons each rest ih =>
    intro rs acc h
    unfold subItemsGo at h
    dsimp only at h
    cases hpa : mustParseAmountGo (splitN2 (clean each)).1 with
    | none => rw [hpa] at h; cases h
    | some a =>
      rw [hpa] at h
      dsimp only at h
      cases hsnd : (splitN2 (clean each)).2 with
      | none => rw [hsnd] at h; cases h
      | some lbl =>
        rw [hsnd] at h
        cases hdt : parseDateGo (clean dt) with
        | none => rw [hdt] at h; cases h
        | some du =>
          rw [hdt] at h
          cases hrec : subItemsGo sender receiver dt k rest with
          | error e => rw [hrec] at h; cases h
          | ok pr2 =>
            obtain ⟨rs2, acc2⟩ := pr2
            rw [hrec] at h
            simp only [Except.ok.injEq, Prod.mk.injEq] at h
            obtain ⟨h1, h2⟩ := h
            subst h1
            subst h2
            obtain ⟨hsum, hall⟩ := ih rs2 acc2 hrec
            constructor
            · simp only [List.map_cons, List.sum_cons]
              omega
            · exact List.Forall₂.cons ⟨a, hpa, rfl⟩ hall

/-- C2: for a five-column row whose label contains the compound separator,
whenever the row total parses and the sub-item loop succeeds, each emitted
record carries its parsed sub-amount multiplied by `k` (`-1` for a negative
row total, else `+1`), the loop's accumulator is the sum of the emitted
sub-amounts, and ingestion of the row succeeds exactly when that sum equals
the row total — otherwise it fails fatally reporting the difference. -/
theorem claim_C2_compound_sum (c0 c1 c2 c3 c4 : Str) (total acc : Int)
    (rs : Collection)
    (hplus : c2.contains '+' = true)
    (htot : mustParseAmountGo c4 = some total)
    (hsub : subItemsGo (clean c0) (clean c1) c3 (if total < 0 then (-1 : Int) else 1)
      (c2.splitOn '+') = .ok (rs, acc)) :
    acc = (rs.map Record.amount).sum ∧
    List.Forall₂ (fun (each : Str) (r : Record) =>
      ∃ a, mustParseAmountGo (splitN2 (clean each)).1 = some a ∧
        r.amount = a * (if total < 0 then (-1 : Int) else 1)) (c2.splitOn '+') rs ∧
    (ingestRow [c0, c1, c2, c3, c4] = .ok rs ↔ acc = total) ∧
    (acc ≠ total →
      ingestRow [c0, c1, c2, c3, c4] =
        .error (.goPanic ("doesn't add up " ++ toString (total - acc)))) := by
  obtain ⟨h1, h2⟩ := subItemsGo_spec (clean c0) (clean c1) c3 _ (c2.splitOn '+') rs acc hsub
  have hrow : ingestRow [c0, c1, c2, c3, c4] =
      if total - acc ≠ 0 then
        .error (.goPanic ("doesn't add up " ++ toString (total - acc)))
      else .ok rs := by
    unfold ingestRow
    simp only [hplus, if_true, htot, hsub]
  refine ⟨h1, h2, ?_, ?_⟩
  · rw [hrow]
    by_cases hat : acc = total
    · have : ¬ (total - acc ≠ 0) := by omega
      simp [this, hat]
    · have : total - acc ≠ 0 := by omega
      simp [this, hat]
  · intro hne
    rw [hrow]
    have : total - acc ≠ 0 := by omega
    simp [this]

/-- Witness for C2 at the row `a,b,1.00 x + 2.00 y,2019-12-05,3.00`. -/
theorem claim_C2_compound_sum_witness :
    ((300 : Int) = (([⟨['a'], ['b'], ['x'], 1575504000, 100⟩,
        ⟨['a'], ['b'], ['y'], 1575504000, 200⟩] : Collection).map Record.amount).sum) ∧
    List.Forall₂ (fun (each : Str) (r : Record) =>
      ∃ a, mustParseAmountGo (splitN2 (clean each)).1 = some a ∧
        r.amount = a * (if (300 : Int) < 0 then (-1 : Int) else 1))
      ("1.00 x + 2.00 y".data.splitOn '+')
      [⟨['a'], ['b'], ['x'], 1575504000, 100⟩, ⟨['a'], ['b'], ['y'], 1575504000, 200⟩] ∧
    (ingestRow ["a".data, "b".data, "1.00 x + 2.00 y".data, "2019-12-05".data,
        "3.00".data] =
      .ok [⟨['a'], ['b'], ['x'], 1575504000, 100⟩,
        ⟨['a'], ['b'], ['y'], 1575504000, 200⟩] ↔ (300 : Int) = 300) ∧
    ((300 : Int) ≠ 300 →
      ingestRow ["a".data, "b".data, "1.00 x + 2.00 y".data, "2019-12-05".data,
        "3.00".data] =
        .error (.goPanic ("doesn't add up " ++ toString ((300 : Int) - 300)))) :=
  claim_C2_compound_sum "a".data "b".data "1.00 x + 2.00 y".data "2019-12-05".data
    "3.00".data 300 300
    [⟨['a'], ['b'], ['x'], 1575504000, 100⟩, ⟨['a'], ['b'], ['y'], 1575504000, 200⟩]
    (by decide) (by decide) (by rfl)

/-! ## Date conditions -/

theorem isWordGo_of_digit {c : Char} (h : c.isDigit = true) : isWordGo c = true := by
  simp [isWordGo, Char.isAlphanum, h]

theorem Compare_date_eq (subs : List (Str × Str)) (cmp : comparator) (r : Record)
    (hh : cmp.header = 'd') (ho : cmp.operator = '=') :
    Compare subs cmp r = .ok (cmp.IsMatchingDate r) := by
  simp [Compare, hh, ho]

theorem year_offset_pos (N : Int) : 0 < dateUnixGo N 12 31 - dateUnixGo N 1 1 := by
  simp only [dateUnixGo, civilDays, normYM, monthOff]
  norm_num
  split_ifs <;> omega

theorem matchers_none_of_digits4 {a b c d : Char} (ha : a.isDigit = true)
    (hb : b.isDigit = true) (hc : c.isDigit = true) (hd : d.isDigit = true) :
    matchDayMonth [a, b, c, d] = none ∧ matchDayMonthYear [a, b, c, d] = none ∧
    matchMonthYear [a, b, c, d] = none ∧ matchDMYsep [a, b, c, d] = none ∧
    matchYMD [a, b, c, d] = none := by
  refine ⟨?_, ?_, ?_, ?_, ?_⟩
  · simp [matchDayMonth, List.takeWhile_cons, ha, hb, hc, hd]
  · simp [matchDayMonthYear, List.takeWhile_cons, ha, hb, hc, hd]
  · simp [matchMonthYear, List.takeWhile_cons, List.dropWhile_cons,
      isWordGo_of_digit ha, isWordGo_of_digit hb, isWordGo_of_digit hc,
      isWordGo_of_digit hd]
  · simp [matchDMYsep, List.takeWhile_cons, ha, hb, hc, hd]
  · rfl

/-- C10: for every date condition `d=V` whose (trimmed, lowercased) value
matches none of the five date regexes, is not a prefix of a configured month
name, and is not a 4-digit year inside `(1922, current_year]`, `prepare`
returns no error and yields a comparator with `number_value = 0` and
`offset_value = 0`, which matches exactly the records dated
1970-01-01 00:00:00 UTC. -/
theorem claim_C10_date_fallthrough_epoch (loc : Locale) (now : Now) (cs : scope)
    (cond g2 : Str)
    (hfind : condRegexFind cond = some ('d', '=', g2))
    (h1 : matchDayMonth (trimGo (lowerStr g2)) = none)
    (h2 : matchDayMonthYear (trimGo (lowerStr g2)) = none)
    (h3 : matchMonthYear (trimGo (lowerStr g2)) = none)
    (h4 : matchDMYsep (trimGo (lowerStr g2)) = none)
    (h5 : matchYMD (trimGo (lowerStr g2)) = none)
    (hm : localeMonth loc.months (trimGo (lowerStr g2)) = -1)
    (hy : ∀ y, (trimGo (lowerStr g2)).length = 4 →
      parseIntGo 16 (trimGo (lowerStr g2)) = some y → ¬ (1922 < y ∧ y ≤ now.year)) :
    ∃ cmp, prepareCond loc now cs cond = .ok cmp ∧
      cmp.numberValue = 0 ∧ cmp.offsetValue = 0 ∧
      ∀ subs r, Compare subs cmp r = .ok (decide (r.dateU = 0)) := by
  unfold prepareCond
  rw [hfind]
  dsimp only
  rw [if_pos rfl]
  unfold prepareDateCmp
  dsimp only
  rw [h1, h2, h3, h4, h5, hm]
  dsimp only
  rw [if_neg (by norm_num)]
  have hfin : ∀ cmp : comparator, cmp.header = 'd' → cmp.operator = '=' →
      cmp.numberValue = 0 → cmp.offsetValue = 0 →
      (∀ subs r, Compare subs cmp r = .ok (decide (r.dateU = 0))) := by
    intro cmp hh ho hn hof subs r
    rw [Compare_date_eq subs cmp r hh ho]
    simp [comparator.IsMatchingDate, hn, hof]
  by_cases hlen : (trimGo (lowerStr g2)).length = 4
  · rw [if_pos hlen]
    cases hp : parseIntGo 16 (trimGo (lowerStr g2)) with
    | none => exact ⟨_, rfl, rfl, rfl, hfin _ rfl rfl rfl rfl⟩
    | some y =>
      dsimp only
      rw [if_neg (hy y hlen hp)]
      exact ⟨_, rfl, rfl, rfl, hfin _ rfl rfl rfl rfl⟩
  · rw [if_neg hlen]
    exact ⟨_, rfl, rfl, rfl, hfin _ rfl rfl rfl rfl⟩

/-- Witness for C10 at the condition `d=hello` with the default locale. -/
theorem claim_C10_date_fallthrough_epoch_witness :
    ∃ cmp, prepareCond ⟨[], []⟩ ⟨2026, 10⟩ ⟨true, true⟩ "d=hello".data = .ok cmp ∧
      cmp.numberValue = 0 ∧ cmp.offsetValue = 0 ∧
      ∀ subs r, Compare subs cmp r = .ok (decide (r.dateU = 0)) :=
  claim_C10_date_fallthrough_epoch ⟨[], []⟩ ⟨2026, 10⟩ ⟨true, true⟩
    "d=hello".data "hello".data (by decide) (by decide) (by decide) (by decide)
    (by decide) (by decide) (by rfl)
    (fun y hlen _ => absurd hlen (by decide))

/-- C8 (amended): for a date condition `d=YYYY` whose trimmed value is four
digits and not a month-name prefix, `prepare` succeeds; when the year lies in
`(1922, current_year]` the comparator accepts exactly the records whose date
is within that year (January 1 00:00 UTC through December 31 00:00 UTC), and
when the year is outside that interval the comparator silently matches
exactly the records dated 1970-01-01 00:00:00 UTC (Unix epoch) — not no
records at all. -/
theorem claim_C8_bare_year (loc : Locale) (now : Now) (cs : scope) (cond g2 : Str)
    (a b c d : Char) (N : Int)
    (hfind : condRegexFind cond = some ('d', '=', g2))
    (hbv : trimGo (lowerStr g2) = [a, b, c, d])
    (ha : a.isDigit = true) (hb : b.isDigit = true)
    (hc : c.isDigit = true) (hd : d.isDigit = true)
    (hm : localeMonth loc.months [a, b, c, d] = -1)
    (hN : parseIntGo 16 [a, b, c, d] = some N) :
    ∃ cmp, prepareCond loc now cs cond = .ok cmp ∧
      ((1922 < N ∧ N ≤ now.year) →
        ∀ subs r, Compare subs cmp r =
          .ok (decide (dateUnixGo N 1 1 ≤ r.dateU ∧ r.dateU ≤ dateUnixGo N 12 31))) ∧
      (¬ (1922 < N ∧ N ≤ now.year) →
        ∀ subs r, Compare subs cmp r = .ok (decide (r.dateU = 0))) := by
  obtain ⟨m1, m2, m3, m4, m5⟩ := matchers_none_of_digits4 ha hb hc hd
  unfold prepareCond
  rw [hfind]
  dsimp only
  rw [if_pos rfl]
  unfold prepareDateCmp
  dsimp only
  rw [hbv, m1, m2, m3, m4, m5, hm]
  dsimp only
  rw [if_neg (by norm_num)]
  rw [if_pos (by rfl)]
  rw [hN]
  dsimp only
  by_cases hr : 1922 < N ∧ N ≤ now.year
  · rw [if_pos hr]
    refine ⟨_, rfl, ?_, ?_⟩
    · intro _ subs r
      rw [Compare_date_eq subs _ r rfl rfl]
      simp only [comparator.IsMatchingDate]
      rw [if_pos (year_offset_pos N)]
      have hsum : dateUnixGo N 1 1 + (dateUnixGo N 12 31 - dateUnixGo N 1 1) =
          dateUnixGo N 12 31 := by ring
      rw [hsum]
    · intro hcon
      exact absurd hr hcon
  · rw [if_neg hr]
    refine ⟨_, rfl, ?_, ?_⟩
    · intro hcon
      exact absurd hcon hr
    · intro _ subs r
      rw [Compare_date_eq subs _ r rfl rfl]
      simp [comparator.IsMatchingDate]

/-- Witness for C8 at the condition `d=1984` with current year 2026. -/
theorem claim_C8_bare_year_witness :
    ∃ cmp, prepareCond ⟨[], []⟩ ⟨2026, 10⟩ ⟨true, true⟩ "d=1984".data = .ok cmp ∧
      ((1922 < (1984 : Int) ∧ (1984 : Int) ≤ (2026 : Int)) →
        ∀ subs r, Compare subs cmp r =
          .ok (decide (dateUnixGo 1984 1 1 ≤ r.dateU ∧
            r.dateU ≤ dateUnixGo 1984 12 31))) ∧
      (¬ (1922 < (1984 : Int) ∧ (1984 : Int) ≤ (2026 : Int)) →
        ∀ subs r, Compare subs cmp r = .ok (decide (r.dateU = 0))) :=
  claim_C8_bare_year ⟨[], []⟩ ⟨2026, 10⟩ ⟨true, true⟩ "d=1984".data "1984".data
    '1' '9' '8' '4' 1984 (by decide) (by decide) (by decide) (by decide)
    (by decide) (by decide) (by rfl) (by decide)

/-- C8 (counterexample): the year 1900 is outside `(1922, 2026]`, yet the
condition `d=1900` does not match "no records": the comparator keeps
`number_value = 0` and accepts a record dated at the Unix epoch. -/
theorem claim_C8_counterexample :
    ¬ (1922 < (1900 : Int) ∧ (1900 : Int) ≤ (2026 : Int)) ∧
    prepareCond ⟨[], []⟩ ⟨2026, 10⟩ ⟨true, true⟩ "d=1900".data =
      .ok ⟨'d', '=', "1900".data, 0, 0, true, true⟩ ∧
    Compare [] ⟨'d', '=', "1900".data, 0, 0, true, true⟩
      ⟨['a'], ['b'], ['c'], 0, 100⟩ = .ok true := by
  refine ⟨by decide, by rfl, by rfl⟩

/-! ## Amount conditions -/

theorem digitsVal_append (l l2 : Str) : ∀ acc, digitsVal acc (l ++ l2) =
    match digitsVal acc l with
    | none => none
    | some v => digitsVal v l2 := by
  induction l with
  | nil => intro acc; rfl
  | cons c rest ih =>
    intro acc
    simp only [List.cons_append, digitsVal]
    by_cases h : c.isDigit = true
    · simp [h, ih]
    · simp [h]

theorem digitsVal_zeros (acc : Nat) : digitsVal acc ['0', '0'] = some (100 * acc + 0) := by
  have h : digitsVal acc ['0', '0'] = some (10 * (10 * acc + 0) + 0) := rfl
  rw [h]
  congr 1
  ring

theorem digitsVal_nines (acc : Nat) : digitsVal acc ['9', '9'] = some (100 * acc + 99) := by
  have h : digitsVal acc ['9', '9'] = some (10 * (10 * acc + 9) + 9) := rfl
  rw [h]
  congr 1
  ring

theorem signSplit_plus (r : Str) : signSplit ('+' :: r) = (false, r) := rfl

theorem signSplit_minus (r : Str) : signSplit ('-' :: r) = (true, r) := rfl

theorem signSplit_other (c : Char) (r : Str) (h1 : c ≠ '+') (h2 : c ≠ '-') :
    signSplit (c :: r) = (false, c :: r) := by
  simp [signSplit, h1, h2]

theorem parseDigitsRange_some (bits : Nat) (neg : Bool) (ds : Str) (N : Int)
    (h : parseDigitsRange bits neg ds = some N) :
    ∃ n : Nat, digitsVal 0 ds = some n ∧
      N = (if neg then -(n : Int) else (n : Int)) := by
  unfold parseDigitsRange at h
  by_cases h0 : ds = []
  · rw [if_pos h0] at h
    cases h
  · rw [if_neg h0] at h
    cases hdv : digitsVal 0 ds with
    | none => rw [hdv] at h; cases h
    | some n =>
      rw [hdv] at h
      dsimp only at h
      rw [Option.ite_none_right_eq_some] at h
      exact ⟨n, rfl, (Option.some_inj.mp h.2).symm⟩

/-- Appending two digits to a string parsed by `ParseInt` multiplies its value
by 100 and adds (for a `-`-signed string, subtracts) the two-digit value. -/
theorem parseIntGo_suffix (bits : Nat) (s : Str) (N : Int) (c1 c2 : Char) (w : Nat)
    (hw : ∀ acc : Nat, digitsVal acc [c1, c2] = some ((100 * acc + w : Nat)))
    (hN : parseIntGo bits s = some N) (M : Int)
    (hM : parseIntGo 64 (s ++ [c1, c2]) = some M) :
    (s.head? ≠ some '-' ∧ 0 ≤ N ∧ M = 100 * N + w) ∨
    (s.head? = some '-' ∧ N ≤ 0 ∧ M = 100 * N - w) := by
  cases s with
  | nil =>
    exfalso
    simp [parseIntGo, signSplit, parseDigitsRange] at hN
  | cons c r =>
    by_cases hmin : c = '-'
    · subst hmin
      right
      simp only [parseIntGo, List.cons_append, signSplit_minus] at hN hM
      obtain ⟨n, hdv, hNv⟩ := parseDigitsRange_some bits true r N hN
      obtain ⟨m, hdv2, hMv⟩ := parseDigitsRange_some 64 true (r ++ [c1, c2]) M hM
      rw [digitsVal_append, hdv] at hdv2
      dsimp only at hdv2
      rw [hw n] at hdv2
      have hm : m = 100 * n + w := (Option.some_inj.mp hdv2).symm
      subst hm
      norm_num at hNv hMv
      refine ⟨rfl, by omega, by rw [hNv, hMv]; ring⟩
    · have hhead : (c :: r).head? ≠ some '-' := by simp [hmin]
      left
      by_cases hp : c = '+'
      · subst hp
        simp only [parseIntGo, List.cons_append, signSplit_plus] at hN hM
        obtain ⟨n, hdv, hNv⟩ := parseDigitsRange_some bits false r N hN
        obtain ⟨m, hdv2, hMv⟩ := parseDigitsRange_some 64 false (r ++ [c1, c2]) M hM
        rw [digitsVal_append, hdv] at hdv2
        dsimp only at hdv2
        rw [hw n] at hdv2
        have hm : m = 100 * n + w := (Option.some_inj.mp hdv2).symm
        subst hm
        norm_num at hNv hMv
        refine ⟨hhead, by omega, by rw [hNv, hMv]⟩
      · simp only [parseIntGo, List.cons_append, signSplit_other c _ hp hmin] at hN hM
        obtain ⟨n, hdv, hNv⟩ := parseDigitsRange_some bits false (c :: r) N hN
        obtain ⟨m, hdv2, hMv⟩ :=
          parseDigitsRange_some 64 false ((c :: r) ++ [c1, c2]) M hM
        change digitsVal 0 ((c :: r) ++ [c1, c2]) = some m at hdv2
        rw [digitsVal_append, hdv] at hdv2
        dsimp only at hdv2
        rw [hw n] at hdv2
        have hm : m = 100 * n + w := (Option.some_inj.mp hdv2).symm
        subst hm
        norm_num at hNv hMv
        refine ⟨hhead, by omega, by rw [hNv, hMv]⟩

theorem Compare_sum_eq (subs : List (Str × Str)) (cmp : comparator) (r : Record)
    (hh : cmp.header = 's') (ho : cmp.operator = '=') :
    Compare subs cmp r = .ok (cmp.IsMatchingAmount r) := by
  simp [Compare, hh, ho]

/-- C4 (amended): for an amount condition `s=V`: when the trimmed value has
no comma and does not start with `-` and parses to `N`, the comparator accepts
exactly the records whose absolute amount lies in `[N*100, N*100+99]`; when
the value starts with `-` (e.g. `-0`), the appended `99` makes the offset
negative, so the comparator accepts exactly the records whose absolute amount
equals `N*100` — not the claimed interval; and when the value contains a
comma, the comparator accepts exactly the records whose absolute amount equals
the integer formed by stripping all commas. -/
theorem claim_C4_amount_condition (loc : Locale) (now : Now) (cs : scope)
    (cond g2 : Str) (N V : Int)
    (hfind : condRegexFind cond = some ('s', '=', g2)) :
    (((trimGo (lowerStr g2)).contains ',' = false) →
      (trimGo (lowerStr g2)).head? ≠ some '-' →
      parseIntGo 64 (trimGo (lowerStr g2)) = some N →
      ∀ n00 n99 : Int,
        parseIntGo 64 (trimGo (lowerStr g2) ++ ['0', '0']) = some n00 →
        parseIntGo 64 (trimGo (lowerStr g2) ++ ['9', '9']) = some n99 →
        ∃ cmp, prepareCond loc now cs cond = .ok cmp ∧
          ∀ subs r, Compare subs cmp r =
            .ok (decide (N * 100 ≤ absAmt r ∧ absAmt r ≤ N * 100 + 99))) ∧
    (((trimGo (lowerStr g2)).contains ',' = false) →
      (trimGo (lowerStr g2)).head? = some '-' →
      parseIntGo 64 (trimGo (lowerStr g2)) = some N →
      ∀ n00 n99 : Int,
        parseIntGo 64 (trimGo (lowerStr g2) ++ ['0', '0']) = some n00 →
        parseIntGo 64 (trimGo (lowerStr g2) ++ ['9', '9']) = some n99 →
        ∃ cmp, prepareCond loc now cs cond = .ok cmp ∧
          ∀ subs r, Compare subs cmp r = .ok (decide (absAmt r = N * 100))) ∧
    (((trimGo (lowerStr g2)).contains ',' = true) →
      parseIntGo 64 ((lowerStr g2).filter (fun c => c ≠ ',')) = some V →
      ∃ cmp, prepareCond loc now cs cond = .ok cmp ∧
        ∀ subs r, Compare subs cmp r = .ok (decide (absAmt r = V))) := by
  have hbase : prepareCond loc now cs cond =
      prepareSumCmp
        { header := 's', operator := '=', bytesValue := trimGo (lowerStr g2),
          numberValue := 0, offsetValue := 0,
          scopeL := cs.isLeftInclusive, scopeR := cs.isRightInclusive }
        (lowerStr g2) := by
    unfold prepareCond
    rw [hfind]
    dsimp only
    rw [if_neg (by decide), if_pos rfl]
  refine ⟨?_, ?_, ?_⟩
  · intro hnc hhd hN n00 n99 h00 h99
    rw [hbase]
    unfold prepareSumCmp
    dsimp only
    rw [if_neg (by simp only [hnc]; exact Bool.false_ne_true), h00]
    dsimp only
    rw [h99]
    dsimp only
    have hs0 := parseIntGo_suffix 64 _ N '0' '0' 0 digitsVal_zeros hN n00 h00
    have hs9 := parseIntGo_suffix 64 _ N '9' '9' 99 digitsVal_nines hN n99 h99
    rcases hs0 with ⟨-, hN0, e0⟩ | ⟨hmin, -, -⟩
    · rcases hs9 with ⟨-, -, e9⟩ | ⟨hmin, -, -⟩
      · refine ⟨_, rfl, ?_⟩
        intro subs r
        rw [Compare_sum_eq subs _ r rfl rfl]
        simp only [comparator.IsMatchingAmount]
        rw [if_pos (by omega)]
        dsimp only
        congr 1
        rw [decide_eq_decide]
        constructor <;> intro h <;> constructor <;> omega
      · exact absurd hmin hhd
    · exact absurd hmin hhd
  · intro hnc hhd hN n00 n99 h00 h99
    rw [hbase]
    unfold prepareSumCmp
    dsimp only
    rw [if_neg (by simp only [hnc]; exact Bool.false_ne_true), h00]
    dsimp only
    rw [h99]
    dsimp only
    have hs0 := parseIntGo_suffix 64 _ N '0' '0' 0 digitsVal_zeros hN n00 h00
    have hs9 := parseIntGo_suffix 64 _ N '9' '9' 99 digitsVal_nines hN n99 h99
    rcases hs0 with ⟨hmin, -, -⟩ | ⟨-, hNneg, e0⟩
    · exact absurd hhd hmin
    · rcases hs9 with ⟨hmin, -, -⟩ | ⟨-, -, e9⟩
      · exact absurd hhd hmin
      · refine ⟨_, rfl, ?_⟩
        intro subs r
        rw [Compare_sum_eq subs _ r rfl rfl]
        simp only [comparator.IsMatchingAmount]
        rw [if_neg (by omega)]
        dsimp only
        congr 1
        rw [decide_eq_decide]
        constructor <;> intro h <;> omega
  · intro hcomma hV
    rw [hbase]
    unfold prepareSumCmp
    dsimp only
    rw [if_pos hcomma, hV]
    dsimp only
    refine ⟨_, rfl, ?_⟩
    intro subs r
    rw [Compare_sum_eq subs _ r rfl rfl]
    simp only [comparator.IsMatchingAmount]
    rw [if_neg (by omega)]

/-- Witness for C4 at the conditions `s=1000` (interval) and `s=40,22`
(comma) via the no-comma part of the claim theorem. -/
theorem claim_C4_amount_condition_witness :
    ∃ cmp, prepareCond ⟨[], []⟩ ⟨2026, 10⟩ ⟨true, true⟩ "s=1000".data = .ok cmp ∧
      ∀ subs r, Compare subs cmp r =
        .ok (decide ((1000 : Int) * 100 ≤ absAmt r ∧
          absAmt r ≤ (1000 : Int) * 100 + 99)) :=
  (claim_C4_amount_condition ⟨[], []⟩ ⟨2026, 10⟩ ⟨true, true⟩ "s=1000".data
    "1000".data 1000 0 (by decide)).1 (by decide) (by decide) (by decide)
    100000 100099 (by decide) (by decide)

/-- C4 (counterexample): the condition `s=-0` — whose value parses to
`N = 0`, making the claimed interval `[0, 99]` — rejects a record with
absolute amount 50: the appended `99` yields `-99`, a non-positive offset,
so the comparator requires exact equality with 0 instead of the interval. -/
theorem claim_C4_counterexample :
    parseIntGo 64 "-0".data = some 0 ∧
    ((0 : Int) * 100 ≤ (50 : Int) ∧ (50 : Int) ≤ 0 * 100 + 99) ∧
    prepareCond ⟨[], []⟩ ⟨2026, 10⟩ ⟨true, true⟩ "s=-0".data =
      .ok ⟨'s', '=', "-0".data, 0, -99, true, true⟩ ∧
    Compare [] ⟨'s', '=', "-0".data, 0, -99, true, true⟩
      ⟨['a'], ['b'], ['c'], 0, 50⟩ = .ok false := by
  refine ⟨by decide, by decide, by rfl, by rfl⟩

/-- C1 (counterexample): the empty query is accepted by `Filter` (it returns
the input with no error) yet its result is not sorted by date descending, so
the claim fails for the empty query. -/
theorem claim_C1_counterexample :
    FilterGo ⟨[], []⟩ ⟨2026, 10⟩
        [⟨['a'], ['b'], ['c'], 0, 5⟩, ⟨['a'], ['b'], ['c'], 86400, 5⟩] [] =
      .ok [⟨['a'], ['b'], ['c'], 0, 5⟩, ⟨['a'], ['b'], ['c'], 86400, 5⟩] ∧
    ¬ ([⟨['a'], ['b'], ['c'], 0, 5⟩, ⟨['a'], ['b'], ['c'], 86400, 5⟩] : Collection).Pairwise
        (fun a b => recLess b a = false) := by
  constructor
  · rfl
  · intro h
    have := (List.pairwise_cons.mp h).1 ⟨['a'], ['b'], ['c'], 86400, 5⟩ (by simp)
    simp [recLess] at this

end Libcsv
